import Mathlib

/-!
Verification of the vector-store core of the `ms-ai-rag` repository.

The Python source is shallowly embedded: strings are Lean `String`
(`List Char` underneath, an ASCII-faithful model of Python `str`),
Python exceptions are `Except` values, Python `dict` literals are
association lists where the *last* binding of a key wins (mirroring
the override order of `{**a, **b, "k": v}` literals), and the backend
clients (Pinecone, ChromaDB in-memory, MongoDB) are modelled by
explicit state plus an error oracle standing for a failing network
call.  Floating-point similarity scores are modelled over `ℝ`.
-/

namespace RagSpec

/-- Python `str.lower()` restricted to ASCII input: `Char.toLower`
agrees with Python on every ASCII character. -/
def pyLowerStr (s : String) : String := String.mk (s.data.map Char.toLower)

/-- Python `str.replace(a, b)` for single-character `a`, `b`. -/
def pyReplaceChar (s : String) (a b : Char) : String :=
  String.mk (s.data.map fun c => if c = a then b else c)

/-- Python `c in s` membership test for a single character. -/
def pyContainsChar (s : String) (c : Char) : Bool := s.data.contains c

/-- Python `str.isalnum()` per character, restricted to ASCII. -/
def pyIsAlnum (c : Char) : Bool := c.isAlpha || c.isDigit

/-- The `ValueError`s raised by `PineconeAdapter._validate_index_name`
(src/app/adapters/pinecone_adapter.py, lines 27-79).  Each constructor
records the data interpolated into the corresponding message: the
offending name and, for the space/underscore branches, the suggested
replacement `index_name.replace(x, '-').lower()`; for the
special-character branch, the offending characters (the Python code
builds a `set` of them; we keep them as a deduplicated list, the
set's iteration order being irrelevant to every claim). -/
inductive NameError where
  | space (name suggestion : String)
  | underscore (name suggestion : String)
  | specialChars (name : String) (chars : List Char)
deriving DecidableEq

namespace PineconeAdapter

/-- `PineconeAdapter._validate_index_name`
(src/app/adapters/pinecone_adapter.py, lines 27-79): reject names with
spaces, then names with underscores (both with a hyphen-substituted
lowercased suggestion), then lowercase the name, then reject it if any
character of the lowercased form is neither alphanumeric nor a hyphen;
otherwise return the lowercased name. -/
def validate_index_name (indexName : String) : Except NameError String :=
  if pyContainsChar indexName ' ' then
    .error (.space indexName (pyLowerStr (pyReplaceChar indexName ' ' '-')))
  else if pyContainsChar indexName '_' then
    .error (.underscore indexName (pyLowerStr (pyReplaceChar indexName '_' '-')))
  else
    let validated := pyLowerStr indexName
    if validated.data.all (fun c => pyIsAlnum c || c = '-') then
      .ok validated
    else
      .error (.specialChars indexName
        ((validated.data.filter (fun c => !(pyIsAlnum c || c = '-'))).dedup))

end PineconeAdapter

/-- ASCII characters that are lowercase letters, digits or hyphens are
fixed points of `Char.toLower`. -/
theorem toLower_fix (c : Char) (h : c.isLower = true ∨ c.isDigit = true ∨ c = '-') :
    c.toLower = c := by
  have hb : c.toNat < 65 ∨ 90 < c.toNat := by
    rcases h with h | h | h
    · simp [Char.isLower] at h
      right
      have h1 : ('a' : Char).val ≤ c.val := h.1
      have h2 : (97 : Nat) ≤ c.val.toNat := by exact_mod_cast h1
      simp [Char.toNat]
      omega
    · simp [Char.isDigit] at h
      left
      have h1 : c.val ≤ ('9' : Char).val := h.2
      have h2 : c.val.toNat ≤ (57 : Nat) := by exact_mod_cast h1
      simp [Char.toNat]
      omega
    · subst h
      decide
  simp [Char.toLower]
  intro h1 h2
  exfalso
  omega

/-- A string of lowercase letters, digits and hyphens is fixed by
`pyLowerStr`. -/
theorem pyLowerStr_fix (s : String)
    (h : s.data.all (fun c => c.isLower || c.isDigit || c = '-') = true) :
    pyLowerStr s = s := by
  unfold pyLowerStr
  have : s.data.map Char.toLower = s.data := by
    rw [show s.data = s.data.map id from (List.map_id s.data).symm]
    rw [List.map_map]
    apply List.map_congr_left
    intro c hc
    have hcp := List.all_eq_true.mp h c hc
    simp only [Function.comp, id]
    apply toLower_fix
    rcases Bool.or_eq_true_iff.mp hcp with h1 | h1
    · rcases Bool.or_eq_true_iff.mp h1 with h2 | h2
      · exact Or.inl h2
      · exact Or.inr (Or.inl h2)
    · exact Or.inr (Or.inr (by simpa using h1))
  rw [this]

/-- C1 (counterexample): the claim says every name containing an
uppercase letter is rejected with a corrective suggestion, and that
every name containing a character that is neither lowercase-alphanumeric
nor hyphen is rejected.  The code instead lowercases the name and
accepts it: `"MyCollection"` contains the uppercase (hence not
lowercase-alphanumeric, not hyphen) character `M` yet is accepted, as
the modified string `"mycollection"`. -/
theorem C1_counterexample :
    PineconeAdapter.validate_index_name "MyCollection" = .ok "mycollection" ∧
    pyContainsChar "MyCollection" 'M' = true ∧
    (pyIsAlnum 'M' && 'M'.isLower) = false := by
  exact ⟨by rfl, by decide, by decide⟩

/-- C1 (amended): the cloud-backend collection-name validator rejects
every name containing a space, and otherwise every name containing an
underscore, with a validation error carrying the hyphen-substituted
lowercase suggestion; otherwise it lowercases the name, and rejects it
when the lowercased form contains a character that is neither
alphanumeric nor hyphen; every remaining name is accepted in lowercased
form — in particular uppercase letters are silently lowercased rather
than rejected, and names consisting only of lowercase letters, digits
and hyphens are accepted unchanged. -/
theorem C1_validate_index_name_amended :
    (∀ name : String, pyContainsChar name ' ' = true →
      PineconeAdapter.validate_index_name name =
        .error (.space name (pyLowerStr (pyReplaceChar name ' ' '-')))) ∧
    (∀ name : String, pyContainsChar name ' ' = false →
      pyContainsChar name '_' = true →
      PineconeAdapter.validate_index_name name =
        .error (.underscore name (pyLowerStr (pyReplaceChar name '_' '-')))) ∧
    (∀ name : String, pyContainsChar name ' ' = false →
      pyContainsChar name '_' = false →
      (pyLowerStr name).data.all (fun c => pyIsAlnum c || c = '-') = false →
      PineconeAdapter.validate_index_name name =
        .error (.specialChars name
          (((pyLowerStr name).data.filter
            (fun c => !(pyIsAlnum c || c = '-'))).dedup))) ∧
    (∀ name : String, pyContainsChar name ' ' = false →
      pyContainsChar name '_' = false →
      (pyLowerStr name).data.all (fun c => pyIsAlnum c || c = '-') = true →
      PineconeAdapter.validate_index_name name = .ok (pyLowerStr name)) ∧
    (∀ name : String,
      name.data.all (fun c => c.isLower || c.isDigit || c = '-') = true →
      PineconeAdapter.validate_index_name name = .ok name) := by
  refine ⟨?_, ?_, ?_, ?_, ?_⟩
  · intro name h
    simp [PineconeAdapter.validate_index_name, h]
  · intro name h h2
    simp [PineconeAdapter.validate_index_name, h, h2]
  · intro name h h2 h3
    simp [PineconeAdapter.validate_index_name, h, h2, h3]
  · intro name h h2 h3
    simp [PineconeAdapter.validate_index_name, h, h2, h3]
  · intro name hall
    have hfix : pyLowerStr name = name := pyLowerStr_fix name hall
    have hspace : pyContainsChar name ' ' = false := by
      rw [Bool.eq_false_iff]
      intro hc
      have hm : ' ' ∈ name.data := by
        simpa [pyContainsChar] using hc
      have := List.all_eq_true.mp hall ' ' hm
      simp at this
    have hund : pyContainsChar name '_' = false := by
      rw [Bool.eq_false_iff]
      intro hc
      have hm : '_' ∈ name.data := by
        simpa [pyContainsChar] using hc
      have := List.all_eq_true.mp hall '_' hm
      simp at this
    have hok : (pyLowerStr name).data.all (fun c => pyIsAlnum c || c = '-') = true := by
      rw [hfix]
      apply List.all_eq_true.mpr
      intro c hc
      have hcp := List.all_eq_true.mp hall c hc
      rcases Bool.or_eq_true_iff.mp hcp with h1 | h1
      · rcases Bool.or_eq_true_iff.mp h1 with h2 | h2
        · simp [pyIsAlnum, Char.isAlpha, h2]
        · simp [pyIsAlnum, h2]
      · simp [h1]
    have := (by
      simp [PineconeAdapter.validate_index_name, hspace, hund, hok] :
      PineconeAdapter.validate_index_name name = .ok (pyLowerStr name))
    rw [hfix] at this
    exact this

/-- C1 (witness): the amended theorem evaluated on the spec's own test
vectors: `"My Collection"` is rejected suggesting `"my-collection"`,
`"bad_name"` is rejected suggesting `"bad-name"`, and `"valid-name-1"`
is accepted unchanged. -/
theorem C1_validate_index_name_amended_witness :
    PineconeAdapter.validate_index_name "My Collection" =
      .error (.space "My Collection" "my-collection") ∧
    PineconeAdapter.validate_index_name "bad_name" =
      .error (.underscore "bad_name" "bad-name") ∧
    PineconeAdapter.validate_index_name "valid-name-1" = .ok "valid-name-1" := by
  refine ⟨?_, ?_, ?_⟩
  · have h := C1_validate_index_name_amended.1 "My Collection" (by decide)
    rw [show pyLowerStr (pyReplaceChar "My Collection" ' ' '-') = "my-collection"
      from by decide] at h
    exact h
  · have h := C1_validate_index_name_amended.2.1 "bad_name" (by decide) (by decide)
    rw [show pyLowerStr (pyReplaceChar "bad_name" '_' '-') = "bad-name"
      from by decide] at h
    exact h
  · exact C1_validate_index_name_amended.2.2.2.2 "valid-name-1" (by decide)

/-! ## Chunker

`PDFProcessor` (src/app/core/pdf_processor.py) delegates splitting to
`langchain_text_splitters.RecursiveCharacterTextSplitter` constructed
with `separators = ["\n\n", "\n", " ", ""]` and the default options
`keep_separator=True`, `is_separator_regex=False`,
`strip_whitespace=True`, `length_function=len`.  The splitter below is
that library code embedded for this configuration: separators are
matched literally (the library `re.escape`s them), kept splits carry
their separator as a prefix, and merging joins with the empty
separator (`keep_separator=True` forces the joining separator to
`""`), so the running `total` is just the summed length of the
current group. -/

/-- Python whitespace test, restricted to ASCII (`str.strip()` and the
characters occurring in this pipeline agree with `Char.isWhitespace`). -/
def isWS (c : Char) : Bool := c.isWhitespace

/-- Python `str.strip()` on a character list. -/
def pyStrip (s : List Char) : List Char :=
  ((s.dropWhile isWS).reverse.dropWhile isWS).reverse

/-- Summed length of a group of splits: the loop variable `total` of
`_merge_splits` when the joining separator is empty. -/
def sumLen (l : List (List Char)) : Nat := (l.map List.length).sum

/-- First occurrence of `sep` in `text`: `some (before, after)` such
that `text = before ++ sep ++ after`, scanning left to right (the
semantics of `re.search` / `re.split` for a literal pattern). -/
def splitFirst (sep : List Char) : List Char → Option (List Char × List Char)
  | [] => none
  | c :: rest =>
    if sep.isPrefixOf (c :: rest) then some ([], (c :: rest).drop sep.length)
    else (splitFirst sep rest).map (fun p => (c :: p.1, p.2))

/-- Literal-substring search, the semantics of `re.search` with an
escaped pattern. -/
def containsSub (sep : List Char) : List Char → Bool
  | [] => sep.isEmpty
  | c :: rest => sep.isPrefixOf (c :: rest) || containsSub sep rest

theorem splitFirst_eq {sep : List Char} :
    ∀ {text a b : List Char}, splitFirst sep text = some (a, b) →
      text = a ++ sep ++ b := by
  intro text
  induction text with
  | nil => intro a b h; simp [splitFirst] at h
  | cons c rest ih =>
    intro a b h
    unfold splitFirst at h
    by_cases hp : sep.isPrefixOf (c :: rest) = true
    · rw [if_pos hp] at h
      simp only [Option.some.injEq, Prod.mk.injEq] at h
      obtain ⟨ha, hb⟩ := h
      subst ha
      subst hb
      have hpre : sep <+: c :: rest := List.isPrefixOf_iff_prefix.mp hp
      have htake : sep = (c :: rest).take sep.length := List.prefix_iff_eq_take.mp hpre
      conv_lhs => rw [← List.take_append_drop sep.length (c :: rest)]
      rw [← htake]
      simp
    · rw [if_neg hp] at h
      cases hm : splitFirst sep rest with
      | none => rw [hm] at h; simp at h
      | some p =>
        rw [hm] at h
        simp only [Option.map_some', Option.some.injEq] at h
        obtain ⟨ha, hb⟩ : c :: p.1 = a ∧ p.2 = b := by
          exact Prod.mk.injEq .. ▸ h
        subst ha
        subst hb
        have hr : rest = p.1 ++ sep ++ p.2 := ih hm
        simp [hr]

theorem splitFirst_length {sep : List Char} (hs : sep ≠ []) :
    ∀ {text a b : List Char}, splitFirst sep text = some (a, b) →
      b.length < text.length := by
  intro text a b h
  have he := splitFirst_eq h
  rw [he]
  simp only [List.length_append]
  have : 0 < sep.length := List.length_pos.mpr hs
  omega

/-- Python `re.split` with a literal pattern: the pieces of `text`
between occurrences of `sep` (empty pieces included). -/
def pySplit (sep : List Char) (text : List Char) : List (List Char) :=
  if hs : sep = [] then [text]
  else
    match hm : splitFirst sep text with
    | none => [text]
    | some p => p.1 :: pySplit sep p.2
termination_by text.length
decreasing_by exact splitFirst_length hs hm

/-- `re.split(f"({sep})", text)` with the captured separators merged
onto the following piece and empty strings dropped — the body of
`_split_text_with_regex` with `keep_separator=True`; for `sep = ""`
the library instead uses `list(text)`. -/
def splitKeepSep (sep text : List Char) : List (List Char) :=
  if sep.isEmpty then (text.map (fun c => [c])).filter (fun s => !s.isEmpty)
  else
    match pySplit sep text with
    | [] => []
    | p :: ps => (p :: ps.map (fun q => sep ++ q)).filter (fun s => !s.isEmpty)

theorem pySplit_ne_nil (sep text : List Char) : pySplit sep text ≠ [] := by
  unfold pySplit
  by_cases hs : sep = []
  · simp [hs]
  · simp only [hs, dite_false]
    cases hm : splitFirst sep text <;> simp

/-- Glue for `splitKeepSep`-shaped lists: head unchanged, every later
piece prefixed with the separator. -/
def glueKeep (sep : List Char) : List (List Char) → List Char
  | [] => []
  | p :: ps => p ++ (ps.map (fun q => sep ++ q)).flatten

theorem glueKeep_shift (sep : List Char) (l : List (List Char)) (hl : l ≠ []) :
    (l.map (fun q => sep ++ q)).flatten = sep ++ glueKeep sep l := by
  cases l with
  | nil => exact absurd rfl hl
  | cons p ps => simp [glueKeep]

theorem pySplit_glue (sep text : List Char) :
    glueKeep sep (pySplit sep text) = text := by
  unfold pySplit
  by_cases hs : sep = []
  · simp [hs, glueKeep]
  · simp only [hs, dite_false]
    cases hm : splitFirst sep text with
    | none => simp [glueKeep]
    | some p =>
      simp only [glueKeep]
      rw [glueKeep_shift sep _ (pySplit_ne_nil sep p.2)]
      rw [pySplit_glue sep p.2]
      rw [← List.append_assoc]
      exact (splitFirst_eq hm).symm
termination_by text.length
decreasing_by exact splitFirst_length hs hm

theorem flatten_filter_nonempty (l : List (List Char)) :
    (l.filter (fun s => !s.isEmpty)).flatten = l.flatten := by
  induction l with
  | nil => rfl
  | cons x xs ih =>
    by_cases hx : x.isEmpty
    · have hxe : x = [] := by simpa [List.isEmpty_iff] using hx
      simp [hx, hxe, ih]
    · simp only [List.filter_cons]
      rw [show (!x.isEmpty) = true from by simp [hx]]
      simp [ih]

theorem flatten_splitKeepSep (sep text : List Char) :
    (splitKeepSep sep text).flatten = text := by
  unfold splitKeepSep
  by_cases hs : sep.isEmpty
  · rw [if_pos hs, flatten_filter_nonempty]
    induction text with
    | nil => rfl
    | cons c cs ih => simp_all
  · rw [if_neg (by simp [hs])]
    cases hm : pySplit sep text with
    | nil => exact absurd hm (pySplit_ne_nil sep text)
    | cons p ps =>
      rw [flatten_filter_nonempty]
      have hg := pySplit_glue sep text
      rw [hm] at hg
      simp only [glueKeep] at hg
      simpa using hg

/-- `_join_docs(docs, "")`: concatenate the group, strip whitespace,
and return `none` for an all-whitespace result. -/
def joinDocs (cur : List (List Char)) : Option (List Char) :=
  let t := pyStrip cur.flatten
  if t.isEmpty then none else some t

/-- The `while` loop of `_merge_splits` that slides the overlap window:
pop leading splits while `total > chunk_overlap` or adding the next
split would still overflow `chunk_size`. -/
def popLoop (cs co dlen : Nat) : List (List Char) → List (List Char)
  | [] => []
  | x :: rest =>
    if co < sumLen (x :: rest) ∨ (cs < sumLen (x :: rest) + dlen ∧ 0 < sumLen (x :: rest)) then
      popLoop cs co dlen rest
    else x :: rest

/-- The `for` loop of `_merge_splits` (joining separator `""`):
`docs` accumulates emitted chunks, `cur` is `current_doc`.  When the
next split would overflow `chunk_size` and the current group is
nonempty, the group is joined and emitted and the overlap window is
slid; in all cases the split is then appended to the group.  At the
end the remaining group is joined and emitted. -/
def mergeLoop (cs co : Nat) : List (List Char) → List (List Char) → List (List Char) → List (List Char)
  | docs, cur, [] => docs ++ (joinDocs cur).toList
  | docs, cur, d :: rest =>
    if cs < sumLen cur + d.length then
      if cur.isEmpty then mergeLoop cs co docs (cur ++ [d]) rest
      else
        mergeLoop cs co (docs ++ (joinDocs cur).toList)
          ((popLoop cs co d.length cur) ++ [d]) rest
    else mergeLoop cs co docs (cur ++ [d]) rest

/-- `_merge_splits(splits, "")`. -/
def mergeSplits (cs co : Nat) (splits : List (List Char)) : List (List Char) :=
  mergeLoop cs co [] [] splits

/-- The split-classification loop of `_split_text`: accumulate splits
shorter than `chunk_size` into `goods`; on a long split, flush the
accumulated group through `_merge_splits`, then either emit the long
split as-is (no further separators) or recurse on it; at the end flush
the remaining group. -/
def goodLoop (cs co : Nat) (noNew : Bool) (recurse : List Char → List (List Char)) :
    List (List Char) → List (List Char) → List (List Char)
  | [], goods => if goods.isEmpty then [] else mergeSplits cs co goods
  | s :: rest, goods =>
    if s.length < cs then goodLoop cs co noNew recurse rest (goods ++ [s])
    else
      (if goods.isEmpty then [] else mergeSplits cs co goods) ++
      (if noNew then [s] else recurse s) ++
      goodLoop cs co noNew recurse rest []

/-- The separator-selection loop of `_split_text`: take the first
separator that is empty (new separators stay `[]`) or occurs in the
text (new separators are the remaining ones). -/
def chooseSepAux : List (List Char) → List Char → Option (List Char × List (List Char))
  | [], _ => none
  | s :: rest, text =>
    if s.isEmpty then some ([], [])
    else if containsSub s text then some (s, rest)
    else chooseSepAux rest text

/-- Separator selection including the fall-through default
`separator = separators[-1]` (the repository's separator list always
ends in `""`, so the fall-through is unreachable there). -/
def chooseSep (seps : List (List Char)) (text : List Char) : List Char × List (List Char) :=
  match chooseSepAux seps text with
  | some r => r
  | none => (seps.getLastD [], [])

theorem chooseSepAux_rest {seps : List (List Char)} {text : List Char}
    {r : List Char × List (List Char)} (h : chooseSepAux seps text = some r) :
    r.2.length < seps.length ∨ r.2 = [] := by
  induction seps with
  | nil => simp [chooseSepAux] at h
  | cons s rest ih =>
    unfold chooseSepAux at h
    by_cases h1 : s.isEmpty
    · rw [if_pos h1] at h
      right
      rw [← Option.some.inj h]
    · rw [if_neg h1] at h
      by_cases h2 : containsSub s text
      · rw [if_pos h2] at h
        left
        rw [← Option.some.inj h]
        simp
      · rw [if_neg h2] at h
        rcases ih h with h3 | h3
        · left; simp; omega
        · right; exact h3

theorem chooseSep_rest (seps : List (List Char)) (text : List Char) :
    (chooseSep seps text).2.length < seps.length ∨ (chooseSep seps text).2 = [] := by
  unfold chooseSep
  cases hm : chooseSepAux seps text with
  | none => simp
  | some r => exact chooseSepAux_rest hm

/-- `RecursiveCharacterTextSplitter._split_text` for literal
separators with `keep_separator=True`: choose the active separator,
split keeping separators, then classify/merge via `goodLoop`,
recursing on oversized splits with the remaining separators. -/
def splitText (cs co : Nat) (text : List Char) (seps : List (List Char)) : List (List Char) :=
  let p := chooseSep seps text
  let recurse : List Char → List (List Char) :=
    if h : p.2.length < seps.length then fun t => splitText cs co t p.2
    else fun _ => []
  goodLoop cs co p.2.isEmpty recurse (splitKeepSep p.1 text) []
termination_by seps.length
decreasing_by exact h

/-- The separator list the repository passes to the splitter
(src/app/core/pdf_processor.py, lines 26-29): paragraph break, line
break, space, character boundary. -/
def defaultSeparators : List (List Char) := [['\n', '\n'], ['\n'], [' '], []]

/-- `split_text` as called by `process_pdf`. -/
def split_text (cs co : Nat) (text : List Char) : List (List Char) :=
  splitText cs co text defaultSeparators

/-! Auxiliary facts used to show that the splitter never loses the
last non-whitespace character of its input. -/

/-- A piece of text containing at least one non-whitespace character. -/
def hasNonWs (s : List Char) : Bool := s.any fun c => !isWS c

/-- A list of chunks one of which contains non-whitespace. -/
def hasNonWsChunk (l : List (List Char)) : Bool := l.any hasNonWs

theorem hasNonWs_append (a b : List Char) :
    hasNonWs (a ++ b) = (hasNonWs a || hasNonWs b) := by
  simp [hasNonWs]

theorem hasNonWsChunk_append (a b : List (List Char)) :
    hasNonWsChunk (a ++ b) = (hasNonWsChunk a || hasNonWsChunk b) := by
  simp [hasNonWsChunk]

theorem hasNonWs_flatten (L : List (List Char)) :
    hasNonWs L.flatten = hasNonWsChunk L := by
  induction L with
  | nil => rfl
  | cons x xs ih =>
    simp only [List.flatten_cons, hasNonWs_append, ih, hasNonWsChunk, List.any_cons]

theorem hasNonWs_dropWhile (s : List Char) (h : hasNonWs s = true) :
    hasNonWs (s.dropWhile isWS) = true := by
  induction s with
  | nil => simp [hasNonWs] at h
  | cons c cs ih =>
    by_cases hc : isWS c
    · rw [List.dropWhile_cons_of_pos hc]
      apply ih
      simp only [hasNonWs, List.any_cons, hc] at h ⊢
      simpa using h
    · rw [List.dropWhile_cons_of_neg hc]
      exact h

theorem hasNonWs_reverse (s : List Char) :
    hasNonWs s.reverse = hasNonWs s := by
  simp [hasNonWs]

theorem hasNonWs_pyStrip (s : List Char) (h : hasNonWs s = true) :
    hasNonWs (pyStrip s) = true := by
  unfold pyStrip
  rw [hasNonWs_reverse]
  apply hasNonWs_dropWhile
  rw [hasNonWs_reverse]
  exact hasNonWs_dropWhile s h

theorem hasNonWs_ne_nil {s : List Char} (h : hasNonWs s = true) : s ≠ [] := by
  intro he
  subst he
  simp [hasNonWs] at h

theorem joinDocs_nonws (cur : List (List Char)) (h : hasNonWs cur.flatten = true) :
    hasNonWsChunk (joinDocs cur).toList = true := by
  unfold joinDocs
  have hp := hasNonWs_pyStrip cur.flatten h
  have hne : pyStrip cur.flatten ≠ [] := hasNonWs_ne_nil hp
  rw [if_neg (by simpa [List.isEmpty_iff] using hne)]
  simpa [hasNonWsChunk] using hp

theorem mergeLoop_keeps (cs co : Nat) :
    ∀ splits docs cur,
      (hasNonWsChunk docs || hasNonWs cur.flatten || hasNonWsChunk splits) = true →
      hasNonWsChunk (mergeLoop cs co docs cur splits) = true := by
  intro splits
  induction splits with
  | nil =>
    intro docs cur h
    unfold mergeLoop
    rw [hasNonWsChunk_append]
    simp only [hasNonWsChunk, List.any_nil, Bool.or_false] at h
    rcases Bool.or_eq_true_iff.mp h with h1 | h1
    · simp [hasNonWsChunk, h1]
    · rw [joinDocs_nonws cur h1]
      simp
  | cons d rest ih =>
    intro docs cur h
    have hsplit : hasNonWsChunk (d :: rest) = (hasNonWs d || hasNonWsChunk rest) := by
      simp [hasNonWsChunk]
    unfold mergeLoop
    by_cases h1 : cs < sumLen cur + d.length
    · rw [if_pos h1]
      by_cases h2 : cur.isEmpty
      · rw [if_pos h2]
        apply ih
        rw [List.flatten_append, hasNonWs_append]
        simp only [List.flatten_cons, List.flatten_nil, List.append_nil]
        rw [hsplit] at h
        rcases Bool.or_eq_true_iff.mp h with h3 | h3
        · rcases Bool.or_eq_true_iff.mp h3 with h4 | h4
          · rw [h4]; rfl
          · rw [h4]; simp
        · rcases Bool.or_eq_true_iff.mp h3 with h4 | h4
          · rw [h4]; simp
          · rw [h4]; simp
      · rw [if_neg h2]
        apply ih
        rw [hasNonWsChunk_append, List.flatten_append, hasNonWs_append]
        simp only [List.flatten_cons, List.flatten_nil, List.append_nil]
        rw [hsplit] at h
        rcases Bool.or_eq_true_iff.mp h with h3 | h3
        · rcases Bool.or_eq_true_iff.mp h3 with h4 | h4
          · rw [h4]; simp
          · rw [joinDocs_nonws cur h4]; simp
        · rcases Bool.or_eq_true_iff.mp h3 with h4 | h4
          · rw [h4]; simp
          · rw [h4]; simp
    · rw [if_neg h1]
      apply ih
      rw [List.flatten_append, hasNonWs_append]
      simp only [List.flatten_cons, List.flatten_nil, List.append_nil]
      rw [hsplit] at h
      rcases Bool.or_eq_true_iff.mp h with h3 | h3
      · rcases Bool.or_eq_true_iff.mp h3 with h4 | h4
        · rw [h4]; rfl
        · rw [h4]; simp
      · rcases Bool.or_eq_true_iff.mp h3 with h4 | h4
        · rw [h4]; simp
        · rw [h4]; simp

theorem hasNonWsChunk_ne_nil {l : List (List Char)} (h : hasNonWsChunk l = true) :
    l ≠ [] := by
  intro he
  subst he
  simp [hasNonWsChunk] at h

theorem mergeSplits_keeps (cs co : Nat) (splits : List (List Char))
    (h : hasNonWsChunk splits = true) : mergeSplits cs co splits ≠ [] := by
  apply hasNonWsChunk_ne_nil
  apply mergeLoop_keeps
  rw [h]
  simp

theorem goodLoop_ne_nil (cs co : Nat) (noNew : Bool)
    (recurse : List Char → List (List Char))
    (hrec : noNew = false → ∀ t, hasNonWs t = true → recurse t ≠ []) :
    ∀ splits goods, hasNonWsChunk (goods ++ splits) = true →
      goodLoop cs co noNew recurse splits goods ≠ [] := by
  intro splits
  induction splits with
  | nil =>
    intro goods h
    rw [List.append_nil] at h
    unfold goodLoop
    rw [if_neg (by simpa [List.isEmpty_iff] using hasNonWsChunk_ne_nil h)]
    exact mergeSplits_keeps cs co goods h
  | cons s rest ih =>
    intro goods h
    unfold goodLoop
    by_cases h1 : s.length < cs
    · rw [if_pos h1]
      apply ih
      rw [show (goods ++ [s]) ++ rest = goods ++ s :: rest from by simp]
      exact h
    · rw [if_neg h1]
      rw [hasNonWsChunk_append] at h
      have hsplit : hasNonWsChunk (s :: rest) = (hasNonWs s || hasNonWsChunk rest) := by
        simp [hasNonWsChunk]
      rw [hsplit] at h
      rcases Bool.or_eq_true_iff.mp h with h2 | h2
      · intro hnil
        rcases List.append_eq_nil.mp hnil with ⟨ha, _⟩
        rcases List.append_eq_nil.mp ha with ⟨hb, _⟩
        rw [if_neg (by simpa [List.isEmpty_iff] using hasNonWsChunk_ne_nil h2)] at hb
        exact mergeSplits_keeps cs co goods h2 hb
      · rcases Bool.or_eq_true_iff.mp h2 with h3 | h3
        · intro hnil
          rcases List.append_eq_nil.mp hnil with ⟨ha, _⟩
          rcases List.append_eq_nil.mp ha with ⟨_, hc⟩
          by_cases h4 : noNew
          · rw [if_pos h4] at hc
            simp at hc
          · rw [if_neg h4] at hc
            exact hrec (by simpa using h4) s h3 hc
        · intro hnil
          rcases List.append_eq_nil.mp hnil with ⟨_, hb⟩
          refine ih [] ?_ hb
          simpa using h3

theorem splitText_ne_nil (cs co : Nat) (seps : List (List Char)) (text : List Char)
    (h : hasNonWs text = true) : splitText cs co text seps ≠ [] := by
  unfold splitText
  apply goodLoop_ne_nil
  · intro hne t ht
    have hne2 : (chooseSep seps text).2 ≠ [] := by
      intro he
      rw [he] at hne
      simp at hne
    have hlt : (chooseSep seps text).2.length < seps.length := by
      rcases chooseSep_rest seps text with h1 | h1
      · exact h1
      · exact absurd h1 hne2
    rw [dif_pos hlt]
    exact splitText_ne_nil cs co (chooseSep seps text).2 t ht
  · rw [List.nil_append, ← hasNonWs_flatten, flatten_splitKeepSep]
    exact h
termination_by seps.length
decreasing_by exact hlt

/-! ## Document model and `process_pdf` -/

/-- Metadata values occurring in the pipeline: strings (file name,
parent document id, caller-supplied values) and integers
(`chunk_index`, `chunk_total`). -/
inductive MVal where
  | str (s : String)
  | nat (n : Nat)
deriving DecidableEq

/-- Python `dict` modelled as an association list in which the *last*
binding of a key wins, matching the override order of Python dict
literals `{**a, **b, "k": v}` (merging is `++`). -/
abbrev PyDict := List (String × MVal)

/-- Lookup in a `PyDict`: the last binding of the key. -/
def dictGet (d : PyDict) (k : String) : Option MVal :=
  (d.reverse.find? (fun kv => kv.1 == k)).map (fun kv => kv.2)

/-- `app.core.vector_store.Document`: content, open metadata mapping,
optional caller-assigned id. -/
structure Document where
  content : String
  metadata : PyDict
  doc_id : Option String
deriving DecidableEq

/-- The error raised by `process_pdf` when the extracted text is empty
or whitespace-only — the spec's `EmptyContentError`, raised in the
source as `ValueError("PDF não contém texto extraível")`
(src/app/core/pdf_processor.py, lines 53-54). -/
inductive PdfError where
  | emptyContent
deriving DecidableEq

instance {ε α : Type} [DecidableEq ε] [DecidableEq α] : DecidableEq (Except ε α) :=
  fun x y =>
    match x, y with
    | .error a, .error b =>
      if h : a = b then isTrue (by rw [h]) else isFalse (fun hc => h (Except.error.inj hc))
    | .ok a, .ok b =>
      if h : a = b then isTrue (by rw [h]) else isFalse (fun hc => h (Except.ok.inj hc))
    | .error _, .ok _ => isFalse (fun hc => Except.noConfusion hc)
    | .ok _, .error _ => isFalse (fun hc => Except.noConfusion hc)

namespace PDFProcessor

/-- `PDFProcessor.process_pdf` (src/app/core/pdf_processor.py, lines
31-84) applied to an already-extracted text: reject empty/whitespace
extraction, split into chunks, and build one `Document` per chunk with
lineage metadata and the synthesized `"<document_id>_chunk_<idx>"` id.
The caller metadata is merged over the `source_file`/`document_id`
defaults (Python `{**default, **(metadata or {})}`), and
`chunk_index`/`chunk_total` are merged last. -/
def process_pdf (cs co : Nat) (text : List Char)
    (filename documentId : String) (metadata : PyDict) :
    Except PdfError (List Document) :=
  if (pyStrip text).isEmpty then .error .emptyContent
  else
    let chunks := split_text cs co text
    let defaultMetadata : PyDict :=
      [("source_file", .str filename), ("document_id", .str documentId)] ++ metadata
    .ok (chunks.enum.map fun ic =>
      { content := String.mk ic.2
        metadata := defaultMetadata ++
          [("chunk_index", .nat ic.1), ("chunk_total", .nat chunks.length)]
        doc_id := some (documentId ++ "_chunk_" ++ toString ic.1) })

end PDFProcessor

theorem hasNonWs_not_all (s : List Char) : hasNonWs s = !(s.all isWS) := by
  induction s with
  | nil => rfl
  | cons c cs ih =>
    simp only [hasNonWs, List.any_cons, List.all_cons, Bool.not_and]
    rw [show (cs.any fun c => !isWS c) = hasNonWs cs from rfl, ih]

theorem pyStrip_isEmpty_iff (s : List Char) : (pyStrip s).isEmpty = s.all isWS := by
  cases ha : s.all isWS
  · have hnw : hasNonWs s = true := by rw [hasNonWs_not_all, ha]; rfl
    have := hasNonWs_ne_nil (hasNonWs_pyStrip s hnw)
    simpa [List.isEmpty_iff] using this
  · have hdrop : s.dropWhile isWS = [] :=
      List.dropWhile_eq_nil_iff.mpr (List.all_eq_true.mp ha)
    unfold pyStrip
    rw [hdrop]
    rfl

theorem dictGet_append (a b : PyDict) (k : String) :
    dictGet (a ++ b) k = (dictGet b k).or (dictGet a k) := by
  unfold dictGet
  rw [List.reverse_append, List.find?_append]
  cases b.reverse.find? (fun kv => kv.1 == k) <;> simp

/-- C5: given that text extraction succeeds, `process_pdf` fails with
the empty-content domain error exactly when the extracted text is
empty or whitespace-only, and for every extracted text containing a
non-whitespace character it succeeds with at least one chunk. -/
theorem C5_process_pdf_empty_iff (cs co : Nat) (text : List Char)
    (filename documentId : String) (metadata : PyDict) :
    (PDFProcessor.process_pdf cs co text filename documentId metadata =
        .error .emptyContent ↔ text.all isWS = true) ∧
    (text.all isWS = false →
      ∃ docs, PDFProcessor.process_pdf cs co text filename documentId metadata =
          .ok docs ∧ docs ≠ []) := by
  constructor
  · constructor
    · intro h
      by_contra hall
      have hall2 : text.all isWS = false := by
        cases hv : text.all isWS
        · rfl
        · exact absurd hv hall
      unfold PDFProcessor.process_pdf at h
      rw [pyStrip_isEmpty_iff, hall2] at h
      simp at h
    · intro h
      unfold PDFProcessor.process_pdf
      rw [pyStrip_isEmpty_iff, h]
      rfl
  · intro h
    have hnw : hasNonWs text = true := by rw [hasNonWs_not_all, h]; rfl
    refine ⟨(split_text cs co text).enum.map (fun ic =>
      { content := String.mk ic.2
        metadata := ([("source_file", MVal.str filename),
            ("document_id", MVal.str documentId)] ++ metadata) ++
          [("chunk_index", MVal.nat ic.1),
           ("chunk_total", MVal.nat (split_text cs co text).length)]
        doc_id := some (documentId ++ "_chunk_" ++ toString ic.1) }), ?_, ?_⟩
    · unfold PDFProcessor.process_pdf
      rw [pyStrip_isEmpty_iff, h]
      simp only [Bool.false_eq_true, if_false]
    · intro hnil
      have hchunks : split_text cs co text ≠ [] := splitText_ne_nil cs co _ text hnw
      apply hchunks
      have hlen := congrArg List.length hnil
      simp only [List.length_map, List.enum_length, List.length_nil] at hlen
      exact List.length_eq_zero.mp hlen

/-- C5 (witness): a whitespace-only extraction (`" \n"`) is rejected
with the empty-content error, and a non-whitespace extraction
(`"hi"`) produces a nonempty chunk list. -/
theorem C5_process_pdf_empty_iff_witness :
    PDFProcessor.process_pdf 500 50 (' ' :: '\n' :: []) "f.pdf" "d1" [] =
      .error .emptyContent ∧
    (PDFProcessor.process_pdf 500 50 ('h' :: 'i' :: []) "f.pdf" "d1" [] =
        .error .emptyContent → False) := by
  constructor
  · exact (C5_process_pdf_empty_iff 500 50 (' ' :: '\n' :: []) "f.pdf" "d1" []).1.mpr
      (by decide)
  · intro hc
    have h2 := (C5_process_pdf_empty_iff 500 50 ('h' :: 'i' :: []) "f.pdf" "d1" []).1.mp hc
    simp at h2
    exact absurd h2.1 (by decide)

/-- C4 (counterexample): the claim quantifies over *every*
caller-supplied metadata mapping, but a caller-supplied
`"source_file"` binding overrides the filename in every produced
chunk (Python merges `**metadata` after the defaults): with metadata
`{"source_file": "evil"}` and filename `"f.pdf"`, the produced chunk
carries `source_file = "evil"`, not the filename. -/
theorem C4_counterexample :
    PDFProcessor.process_pdf 500 50 ('h' :: 'i' :: []) "f.pdf" "d1"
      [("source_file", MVal.str "evil")] =
      .ok [{ content := "hi"
             metadata := [("source_file", .str "f.pdf"), ("document_id", .str "d1"),
                          ("source_file", .str "evil"),
                          ("chunk_index", .nat 0), ("chunk_total", .nat 1)]
             doc_id := some "d1_chunk_0" }] ∧
    dictGet [("source_file", MVal.str "f.pdf"), ("document_id", MVal.str "d1"),
             ("source_file", MVal.str "evil"),
             ("chunk_index", MVal.nat 0), ("chunk_total", MVal.nat 1)] "source_file" =
      some (.str "evil") ∧
    MVal.str "evil" ≠ MVal.str "f.pdf" := by
  refine ⟨?_, by rfl, by decide⟩
  unfold PDFProcessor.process_pdf split_text splitText
  rfl

/-- C4 (amended): whenever the caller-supplied metadata mapping binds
neither `source_file` nor `document_id`, every document produced by a
successful `process_pdf` run carries `source_file` equal to the
filename, `document_id` equal to the parent id, `chunk_index` equal to
its position, `chunk_total` equal to the number of chunks, and the
synthesized id `"<document_id>_chunk_<i>"`; at least one chunk is
produced.  (Without the metadata restriction a caller binding of
`source_file` or `document_id` wins, as the counterexample shows;
`chunk_index`/`chunk_total` are merged after the caller metadata and
can never be overridden.) -/
theorem C4_process_pdf_lineage_amended (cs co : Nat) (text : List Char)
    (filename documentId : String) (md : PyDict)
    (hmd : md.all (fun kv => !(kv.1 == "source_file") && !(kv.1 == "document_id")) = true)
    (docs : List Document)
    (h : PDFProcessor.process_pdf cs co text filename documentId md = .ok docs) :
    1 ≤ docs.length ∧
    ∀ i doc, docs[i]? = some doc →
      dictGet doc.metadata "source_file" = some (.str filename) ∧
      dictGet doc.metadata "document_id" = some (.str documentId) ∧
      dictGet doc.metadata "chunk_index" = some (.nat i) ∧
      dictGet doc.metadata "chunk_total" = some (.nat docs.length) ∧
      doc.doc_id = some (documentId ++ "_chunk_" ++ toString i) := by
  unfold PDFProcessor.process_pdf at h
  by_cases he : (pyStrip text).isEmpty
  · rw [if_pos he] at h
    exact absurd h (by simp)
  · rw [if_neg he] at h
    simp only [Except.ok.injEq] at h
    have hnw : hasNonWs text = true := by
      rw [hasNonWs_not_all, ← pyStrip_isEmpty_iff]
      simpa using he
    have hchunks : split_text cs co text ≠ [] := splitText_ne_nil cs co _ text hnw
    have hlen : docs.length = (split_text cs co text).length := by
      rw [← h]
      simp [List.enum_length]
    constructor
    · rw [hlen]
      exact Nat.succ_le_of_lt (List.length_pos.mpr hchunks)
    · intro i doc hdoc
      rw [← h] at hdoc
      rw [List.getElem?_map, List.getElem?_enum] at hdoc
      cases hc : (split_text cs co text)[i]? with
      | none => rw [hc] at hdoc; simp at hdoc
      | some c =>
        rw [hc] at hdoc
        simp only [Option.map_some', Option.some.injEq] at hdoc
        subst hdoc
        have hmdnone : ∀ k : String,
            md.all (fun kv => !(kv.1 == k)) = true → dictGet md k = none := by
          intro k hk
          unfold dictGet
          rw [List.find?_eq_none.mpr]
          · rfl
          · intro kv hkv
            have := List.all_eq_true.mp hk kv (List.mem_reverse.mp hkv)
            simpa using this
        have hmd1 : dictGet md "source_file" = none := by
          apply hmdnone
          apply List.all_eq_true.mpr
          intro kv hkv
          exact (Bool.and_eq_true_iff.mp (List.all_eq_true.mp hmd kv hkv)).1
        have hmd2 : dictGet md "document_id" = none := by
          apply hmdnone
          apply List.all_eq_true.mpr
          intro kv hkv
          exact (Bool.and_eq_true_iff.mp (List.all_eq_true.mp hmd kv hkv)).2
        refine ⟨?_, ?_, ?_, ?_, ?_⟩
        · rw [dictGet_append, dictGet_append, hmd1]
          rfl
        · rw [dictGet_append, dictGet_append, hmd2]
          rfl
        · rw [dictGet_append]
          rfl
        · rw [dictGet_append, hlen]
          rfl
        · rfl

/-- C4 (witness): the amended theorem applied to the two-character
text `"hi"` with empty caller metadata: the single produced chunk
carries the full lineage metadata and the synthesized id. -/
theorem C4_process_pdf_lineage_amended_witness :
    1 ≤ ([{ content := "hi"
            metadata := [("source_file", MVal.str "f.pdf"), ("document_id", MVal.str "d1"),
                         ("chunk_index", MVal.nat 0), ("chunk_total", MVal.nat 1)]
            doc_id := some "d1_chunk_0" }] : List Document).length ∧
    dictGet [("source_file", MVal.str "f.pdf"), ("document_id", MVal.str "d1"),
             ("chunk_index", MVal.nat 0), ("chunk_total", MVal.nat 1)] "source_file" =
      some (.str "f.pdf") ∧
    dictGet [("source_file", MVal.str "f.pdf"), ("document_id", MVal.str "d1"),
             ("chunk_index", MVal.nat 0), ("chunk_total", MVal.nat 1)] "chunk_index" =
      some (.nat 0) := by
  have h := C4_process_pdf_lineage_amended 500 50 ('h' :: 'i' :: []) "f.pdf" "d1" []
    (by decide)
    [{ content := "hi"
       metadata := [("source_file", MVal.str "f.pdf"), ("document_id", MVal.str "d1"),
                    ("chunk_index", MVal.nat 0), ("chunk_total", MVal.nat 1)]
       doc_id := some "d1_chunk_0" }]
    (by unfold PDFProcessor.process_pdf split_text splitText; rfl)
  have h0 := h.2 0 _ rfl
  exact ⟨h.1, h0.1, h0.2.2.1⟩

/-! ## Pinecone `add_documents`: ids, records and batching -/

/-- Python truthiness fallback `doc.doc_id or fallback`: `None` and
the empty string are falsy. -/
def pyOrStr (o : Option String) (d : String) : String :=
  match o with
  | some s => if s.isEmpty then d else s
  | none => d

/-- One record of the Pinecone upsert payload
(src/app/adapters/pinecone_adapter.py, lines 117-128): id, embedding
vector (kept abstract — the embedding model is an external
collaborator) and metadata `{"content": ..., **doc.metadata}`. -/
structure PineconeRecord (E : Type) where
  id : String
  values : E
  metadata : PyDict
deriving DecidableEq

namespace PineconeAdapter

/-- The ids assigned by the record-building loop of
`PineconeAdapter.add_documents`: the document's `doc_id`, or
`"doc_<i>"` when it is falsy. -/
def add_documents_ids (documents : List Document) : List String :=
  documents.enum.map fun ic => pyOrStr ic.2.doc_id ("doc_" ++ toString ic.1)

/-- The full upsert payload (`records_to_upsert`) built by
`PineconeAdapter.add_documents`, parameterized by the embedding
function. -/
def add_documents_records {E : Type} (encode : String → E)
    (documents : List Document) : List (PineconeRecord E) :=
  documents.enum.map fun ic =>
    { id := pyOrStr ic.2.doc_id ("doc_" ++ toString ic.1)
      values := encode ic.2.content
      metadata := ("content", MVal.str ic.2.content) :: ic.2.metadata }

end PineconeAdapter

/-- Python `records[i:i+batch_size] for i in range(0, len(records),
batch_size)`: consecutive slices of at most `bs` elements.  (Python
raises on step `0`; the source always uses `batch_size = 100`.) -/
def pyBatches {β : Type} (bs : Nat) : List β → List (List β)
  | [] => []
  | x :: xs =>
    if h : bs = 0 then []
    else (x :: xs).take bs :: pyBatches bs ((x :: xs).drop bs)
termination_by l => l.length
decreasing_by
  rw [List.length_drop]
  have h2 : 0 < bs := Nat.pos_of_ne_zero h
  simp
  omega

/-- The batch sequence of upsert calls issued by
`PineconeAdapter.add_documents` (batch size 100). -/
def PineconeAdapter.add_documents_batches {E : Type} (encode : String → E)
    (documents : List Document) : List (List (PineconeRecord E)) :=
  pyBatches 100 (PineconeAdapter.add_documents_records encode documents)

theorem pyBatches_flatten {β : Type} (bs : Nat) (hbs : 0 < bs) (l : List β) :
    (pyBatches bs l).flatten = l := by
  cases l with
  | nil => simp [pyBatches]
  | cons x xs =>
    unfold pyBatches
    rw [dif_neg (by omega)]
    rw [List.flatten_cons, pyBatches_flatten bs hbs ((x :: xs).drop bs)]
    exact List.take_append_drop bs (x :: xs)
termination_by l.length
decreasing_by
  rw [List.length_drop]
  simp
  omega

theorem pyBatches_le {β : Type} (bs : Nat) (l : List β) :
    ∀ j : Nat, ((pyBatches bs l)[j]?.getD []).length ≤ bs := by
  intro j
  cases l with
  | nil => simp [pyBatches]
  | cons x xs =>
    unfold pyBatches
    by_cases h : bs = 0
    · rw [dif_pos h]
      simp
    · rw [dif_neg h]
      cases j with
      | zero => simpa using List.length_take_le bs (x :: xs)
      | succ jj =>
        rw [List.getElem?_cons_succ]
        exact pyBatches_le bs ((x :: xs).drop bs) jj
termination_by l.length
decreasing_by
  rw [List.length_drop]
  have h2 : 0 < bs := Nat.pos_of_ne_zero h
  simp
  omega

theorem pyBatches_count {β : Type} (bs : Nat) (hbs : 0 < bs) (l : List β) :
    (pyBatches bs l).length = (l.length + bs - 1) / bs := by
  cases l with
  | nil =>
    simp only [pyBatches, List.length_nil, List.length_nil, Nat.zero_add]
    rw [Nat.div_eq_of_lt (by omega)]
  | cons x xs =>
    unfold pyBatches
    rw [dif_neg (by omega)]
    have h1 : 0 < (x :: xs).length := by simp
    rw [List.length_cons, pyBatches_count bs hbs ((x :: xs).drop bs), List.length_drop]
    rcases le_or_lt (x :: xs).length bs with hle | hlt
    · have hz : (x :: xs).length - bs = 0 := by omega
      rw [hz]
      have hone : ((x :: xs).length + bs - 1) / bs = 1 :=
        Nat.div_eq_of_lt_le (by omega) (by omega)
      have hz2 : (0 + bs - 1) / bs = 0 := by
        rw [Nat.zero_add]
        exact Nat.div_eq_of_lt (by omega)
      omega
    · have e1 : (x :: xs).length - bs + bs - 1 = ((x :: xs).length - bs - 1) + bs := by omega
      have e2 : (x :: xs).length + bs - 1 = ((x :: xs).length - 1) + bs := by omega
      have e3 : (x :: xs).length - 1 = ((x :: xs).length - bs - 1) + bs := by omega
      rw [e1, e2, Nat.add_div_right _ hbs, e3, Nat.add_div_right _ hbs,
        Nat.add_div_right _ hbs]
termination_by l.length
decreasing_by
  rw [List.length_drop]
  simp
  omega

/-- C3: `add_documents` on the cloud backend issues
`ceil(n/100) = (n+99)/100` sequential upsert calls, each of at most
100 records, whose concatenation is exactly the record list built from
the documents in input order; the returned id list has length `n` and
its `i`-th element is the `i`-th document's `doc_id`, or the
synthesized `"doc_<i>"` when the `doc_id` is absent (Python falsy:
`None` or empty). -/
theorem C3_add_documents_batching {E : Type} (encode : String → E)
    (documents : List Document) :
    (PineconeAdapter.add_documents_batches encode documents).length =
      (documents.length + 99) / 100 ∧
    (∀ j : Nat,
      ((PineconeAdapter.add_documents_batches encode documents)[j]?.getD []).length ≤ 100) ∧
    (PineconeAdapter.add_documents_batches encode documents).flatten =
      PineconeAdapter.add_documents_records encode documents ∧
    (PineconeAdapter.add_documents_ids documents).length = documents.length ∧
    (∀ i : Nat, (PineconeAdapter.add_documents_ids documents)[i]? =
      (documents[i]?).map fun doc => pyOrStr doc.doc_id ("doc_" ++ toString i)) := by
  refine ⟨?_, ?_, ?_, ?_, ?_⟩
  · unfold PineconeAdapter.add_documents_batches
    rw [pyBatches_count 100 (by omega)]
    unfold PineconeAdapter.add_documents_records
    rw [List.length_map, List.enum_length]
    have he : documents.length + 100 - 1 = documents.length + 99 := by omega
    rw [he]
  · exact fun j => pyBatches_le 100 _ j
  · exact pyBatches_flatten 100 (by omega) _
  · unfold PineconeAdapter.add_documents_ids
    rw [List.length_map, List.enum_length]
  · intro i
    unfold PineconeAdapter.add_documents_ids
    rw [List.getElem?_map, List.getElem?_enum]
    cases documents[i]? <;> simp

/-! ## MongoDB manual-similarity search (`MongoDBAdapter.search`)

The aggregation pipeline of src/app/adapters/mongodb_adapter.py,
lines 72-108, is embedded over `ℝ` (modelling the backend's float
arithmetic): `$addFields similarity = dot(embedding, query) /
sqrt(sum embedding_i^2)` via `$zip`/`$reduce`, then
`$sort {similarity: -1}`, then `$limit top_k`.  MongoDB's `$sort` is
modelled by Mathlib's `insertionSort` on the
descending-similarity relation (any sort satisfying
sortedness-plus-permutation is a faithful model; `$sort` gives no
stability guarantee on ties). -/

/-- A document as stored by `MongoDBAdapter.add_documents`:
`_id`, `content`, `embedding`, `metadata`. -/
structure MongoDoc where
  id : String
  content : String
  embedding : List ℝ
  metadata : PyDict

/-- `app.core.vector_store.SearchResult`. -/
structure SearchResult where
  content : String
  score : ℝ
  metadata : PyDict

/-- The `$reduce`-over-`$zip` dot product of the pipeline
(`$multiply` of the paired entries, summed from `initialValue: 0`;
`$zip` truncates to the shorter input). -/
def mongoDot (a b : List ℝ) : ℝ := ((a.zip b).map fun p => p.1 * p.2).sum

/-- The `$reduce` sum of squares of the stored embedding. -/
def mongoNormSq (a : List ℝ) : ℝ := (a.map fun x => x ^ 2).sum

/-- The `similarity` field added by the pipeline: dot product of the
stored embedding with the query embedding, divided by the norm
(`$sqrt` of the sum of squares) of the stored embedding.  (For an
all-zero stored embedding MongoDB's `$divide` errors and the
adapter's `except` returns `[]`; Lean's division-by-zero convention
scores such a document `0` instead — no claim touches that case.) -/
noncomputable def mongoSimilarity (e q : List ℝ) : ℝ :=
  mongoDot e q / Real.sqrt (mongoNormSq e)

/-- The descending-similarity order used by `$sort {similarity: -1}`
on the `(document, similarity)` stage. -/
def mongoSortRel (a b : MongoDoc × ℝ) : Prop := b.2 ≤ a.2

instance : IsTotal (MongoDoc × ℝ) mongoSortRel :=
  ⟨fun a b => le_total b.2 a.2⟩

instance : IsTrans (MongoDoc × ℝ) mongoSortRel :=
  ⟨fun _ _ _ hab hbc => le_trans hbc hab⟩

open Classical in
noncomputable instance : DecidableRel mongoSortRel := fun a b => propDecidable _

/-- The `$addFields` stage: every stored document paired with its
similarity score. -/
noncomputable def mongoScored (docs : List MongoDoc) (q : List ℝ) : List (MongoDoc × ℝ) :=
  docs.map fun d => (d, mongoSimilarity d.embedding q)

/-- The full pipeline result of `MongoDBAdapter.search` on the stored
collection: score every document, sort by descending similarity,
limit to `top_k`, and convert each surviving document to a
`SearchResult` (`content`, `similarity`, `metadata`). -/
noncomputable def MongoDBAdapter.search_results (docs : List MongoDoc) (q : List ℝ)
    (top_k : Nat) : List SearchResult :=
  ((List.insertionSort mongoSortRel (mongoScored docs q)).take top_k).map fun ds =>
    { content := ds.1.content, score := ds.2, metadata := ds.1.metadata }

/-- C2: the generic-document-store search scores *every* stored
document with the dot-product-over-norm similarity (the sorted stage
is a permutation of the scored stage), returns at most `top_k`
results (exactly `top_k` when more matching documents exist), and
in non-increasing score order. -/
theorem C2_mongodb_search_pipeline (docs : List MongoDoc) (q : List ℝ) (top_k : Nat) :
    (MongoDBAdapter.search_results docs q top_k).length = min top_k docs.length ∧
    (MongoDBAdapter.search_results docs q top_k).Pairwise (fun a b => b.score ≤ a.score) ∧
    (List.insertionSort mongoSortRel (mongoScored docs q)).Perm (mongoScored docs q) ∧
    (∀ i : Nat, (mongoScored docs q)[i]? =
      (docs[i]?).map fun d => (d, mongoSimilarity d.embedding q)) := by
  refine ⟨?_, ?_, ?_, ?_⟩
  · unfold MongoDBAdapter.search_results
    rw [List.length_map, List.length_take,
      (List.perm_insertionSort mongoSortRel (mongoScored docs q)).length_eq]
    unfold mongoScored
    rw [List.length_map]
  · unfold MongoDBAdapter.search_results
    rw [List.pairwise_map]
    have hs : (List.insertionSort mongoSortRel (mongoScored docs q)).Pairwise mongoSortRel :=
      List.sorted_insertionSort mongoSortRel (mongoScored docs q)
    exact List.Pairwise.sublist (List.take_sublist _ _) hs
  · exact List.perm_insertionSort mongoSortRel (mongoScored docs q)
  · intro i
    unfold mongoScored
    rw [List.getElem?_map]

/-! ## Adapter operations with backend-failure oracles

Each adapter method wraps its backend calls in `try/except`.  A
possibly-failing backend call is modelled by an oracle argument
`fail : Option PyErr`: `none` means the calls succeed, `some e` means
the first backend call raises `e`.  A method that re-raises returns
`Except.error`; a method that converts failures to booleans returns a
plain `Bool` (there is no code path on which it can raise). -/

/-- A Python exception raised by a backend client.
`connectionFailure` distinguishes `pymongo.errors.ConnectionFailure`
(and subclasses), the only type `MongoDBAdapter.health_check`
catches. -/
structure PyErr where
  connectionFailure : Bool
deriving DecidableEq

/-- The exceptions an adapter method can let escape: the validation
`ValueError` of the Pinecone name check, or a backend exception. -/
inductive AdapterErr where
  | validation (e : NameError)
  | backend (e : PyErr)
deriving DecidableEq

/-- The Pinecone backend state the adapter can observe: which indexes
exist (`pc.has_index`). -/
structure PineconeState where
  indexes : List String
deriving DecidableEq

namespace PineconeAdapter

/-- `PineconeAdapter.add_documents` error behaviour
(src/app/adapters/pinecone_adapter.py, lines 99-148): the name is
validated first (an invalid name raises, and the blanket
`except ... raise` re-raises it); any backend failure
(index creation, embedding, upsert) is printed and re-raised;
on success the assigned ids are returned. -/
def add_documents_run (documents : List Document) (collectionName : String)
    (fail : Option PyErr) : Except AdapterErr (List String) :=
  match validate_index_name collectionName with
  | .error e => .error (.validation e)
  | .ok _ =>
    match fail with
    | some e => .error (.backend e)
    | none => .ok (add_documents_ids documents)

/-- `PineconeAdapter.search` (lines 150-198): validate (re-raising on
failure), return `[]` for a missing index, re-raise backend failures,
otherwise return the backend's matches (the conversion of raw match data
to `SearchResult`s is backend data, kept abstract). -/
def search (st : PineconeState) (collectionName : String)
    (found : List SearchResult) (fail : Option PyErr) :
    Except AdapterErr (List SearchResult) :=
  match validate_index_name collectionName with
  | .error e => .error (.validation e)
  | .ok name =>
    if st.indexes.contains name then
      match fail with
      | some e => .error (.backend e)
      | none => .ok found
    else .ok []

/-- `PineconeAdapter.delete_documents` (lines 200-215): every raised
exception (validation included) is caught and converted to `false`;
a missing index gives `false`; Pinecone's delete-by-ids reports no
match count, so an existing index gives `true` whether or not any id
matched. -/
def delete_documents (st : PineconeState) (docIds : List String)
    (collectionName : String) (fail : Option PyErr) : Bool :=
  match validate_index_name collectionName with
  | .error _ => false
  | .ok name =>
    if st.indexes.contains name then
      match fail with
      | some _ => false
      | none => true
    else false

/-- `PineconeAdapter.delete_collection` (lines 217-229): every raised
exception is caught and converted to `false`; deleting a missing
index succeeds without a backend call. -/
def delete_collection (st : PineconeState) (collectionName : String)
    (fail : Option PyErr) : Bool × PineconeState :=
  match validate_index_name collectionName with
  | .error _ => (false, st)
  | .ok name =>
    if st.indexes.contains name then
      match fail with
      | some _ => (false, st)
      | none => (true, { indexes := st.indexes.filter (fun n => !(n == name)) })
    else (true, st)

/-- `PineconeAdapter.health_check` (lines 231-238): `list_indexes`
under `except Exception`, so every failure becomes `false`. -/
def health_check (fail : Option PyErr) : Bool :=
  match fail with
  | some _ => false
  | none => true

end PineconeAdapter

/-- The in-process ChromaDB adapter state: the `self.collections`
cache mapping collection names to the stored document ids (the
in-memory client's collections are mutated only through this adapter,
in lock-step with the cache). -/
structure ChromaState where
  collections : List (String × List String)
deriving DecidableEq

/-- Cache lookup (`collection_name in self.collections`). -/
def lookupColl (st : ChromaState) (name : String) : Option (List String) :=
  (st.collections.find? (fun kv => kv.1 == name)).map (fun kv => kv.2)

namespace ChromaDBAdapter

/-- `ChromaDBAdapter.add_documents`
(src/app/adapters/chromadb_adapter.py, lines 21-52): the collection
is fetched-or-created and cached *before* the fallible embedding and
`collection.add` calls, so the cache entry survives a failure; on
failure the exception is re-raised; on success the assigned ids are
appended to the collection and returned. -/
def add_documents (st : ChromaState) (documents : List Document)
    (collectionName : String) (fail : Option PyErr) :
    Except AdapterErr (List String) × ChromaState :=
  let st1 : ChromaState :=
    if (lookupColl st collectionName).isSome then st
    else { collections := st.collections ++ [(collectionName, [])] }
  let ids := documents.enum.map fun ic => pyOrStr ic.2.doc_id ("doc_" ++ toString ic.1)
  match fail with
  | some e => (.error (.backend e), st1)
  | none =>
    (.ok ids,
     { collections := st1.collections.map fun kv =>
         if kv.1 == collectionName then (kv.1, kv.2 ++ ids) else kv })

/-- `ChromaDBAdapter.search` (lines 54-96): an uncached collection
returns `[]` without touching the client; backend failures are
re-raised; otherwise the backend's converted results (backend data,
kept abstract) are returned. -/
def search (st : ChromaState) (collectionName : String)
    (results : List SearchResult) (fail : Option PyErr) :
    Except AdapterErr (List SearchResult) :=
  if (lookupColl st collectionName).isSome then
    match fail with
    | some e => .error (.backend e)
    | none => .ok results
  else .ok []

/-- `ChromaDBAdapter.delete_documents` (lines 98-109): an uncached
collection gives `false`; any raised exception is caught and
converted to `false`; otherwise ChromaDB's `collection.delete(ids)`
removes the matching ids (silently ignoring absent ones — chromadb
semantics) and the adapter returns `true` regardless of whether
anything matched. -/
def delete_documents (st : ChromaState) (docIds : List String)
    (collectionName : String) (fail : Option PyErr) : Bool × ChromaState :=
  if (lookupColl st collectionName).isSome then
    match fail with
    | some _ => (false, st)
    | none =>
      (true,
       { collections := st.collections.map fun kv =>
           if kv.1 == collectionName then
             (kv.1, kv.2.filter (fun i => !(docIds.contains i)))
           else kv })
  else (false, st)

/-- `ChromaDBAdapter.delete_collection` (lines 111-120): an uncached
name succeeds with no client call; for a cached name the client
deletion runs first, a failure there is caught and converted to
`false` *before* the cache entry is removed; on success the cache
entry is removed and `true` returned. -/
def delete_collection (st : ChromaState) (collectionName : String)
    (fail : Option PyErr) : Bool × ChromaState :=
  if (lookupColl st collectionName).isSome then
    match fail with
    | some _ => (false, st)
    | none =>
      (true, { collections := st.collections.filter (fun kv => !(kv.1 == collectionName)) })
  else (true, st)

/-- `ChromaDBAdapter.health_check` (lines 122-128): the in-memory
client is always non-`None` after construction, so the probe is the
constant `true`. -/
def health_check : Bool := true

end ChromaDBAdapter

/-- The MongoDB backend state: collections are created lazily, so a
name the adapter never wrote to is just an empty collection. -/
structure MongoState where
  collections : List (String × List MongoDoc)

/-- `self.db[collection_name]` with lazy creation: absent names read
as empty. -/
def mongoColl (st : MongoState) (name : String) : List MongoDoc :=
  ((st.collections.find? (fun kv => kv.1 == name)).map (fun kv => kv.2)).getD []

namespace MongoDBAdapter

/-- `MongoDBAdapter.add_documents`
(src/app/adapters/mongodb_adapter.py, lines 30-62): failures
(embedding or `insert_many`) are printed and re-raised; on success
the assigned ids (`doc_id` or `"doc_<position>"`) are returned. -/
def add_documents_run (documents : List Document) (collectionName : String)
    (fail : Option PyErr) : Except AdapterErr (List String) :=
  match fail with
  | some e => .error (.backend e)
  | none => .ok (documents.enum.map fun ic => pyOrStr ic.2.doc_id ("doc_" ++ toString ic.1))

/-- `MongoDBAdapter.search` (lines 64-126): on *any* failure the
`except` block returns `[]` as a documented fallback instead of
re-raising; on success the aggregation pipeline result is returned. -/
noncomputable def search (st : MongoState) (collectionName : String)
    (q : List ℝ) (top_k : Nat) (fail : Option PyErr) :
    Except AdapterErr (List SearchResult) :=
  match fail with
  | some _ => .ok []
  | none => .ok (search_results (mongoColl st collectionName) q top_k)

/-- `MongoDBAdapter.delete_documents` (lines 128-136):
`delete_many({"_id": {"$in": doc_ids}})`, returning
`deleted_count > 0`; failures are caught and converted to `false`. -/
def delete_documents (st : MongoState) (docIds : List String)
    (collectionName : String) (fail : Option PyErr) : Bool × MongoState :=
  match fail with
  | some _ => (false, st)
  | none =>
    let deletedCount := ((mongoColl st collectionName).filter
      (fun d => docIds.contains d.id)).length
    (decide (0 < deletedCount),
     { collections := st.collections.map fun kv =>
         if kv.1 == collectionName then
           (kv.1, kv.2.filter (fun d => !(docIds.contains d.id)))
         else kv })

/-- `MongoDBAdapter.delete_collection` (lines 138-145): `drop()` is a
no-op on a missing collection and always reports `true`; failures are
caught and converted to `false`. -/
def delete_collection (st : MongoState) (collectionName : String)
    (fail : Option PyErr) : Bool × MongoState :=
  match fail with
  | some _ => (false, st)
  | none =>
    (true, { collections := st.collections.filter (fun kv => !(kv.1 == collectionName)) })

/-- `MongoDBAdapter.health_check` (lines 147-153): pings the server
catching *only* `ConnectionFailure`; every other exception
propagates. -/
def health_check (ping : Option PyErr) : Except AdapterErr Bool :=
  match ping with
  | none => .ok true
  | some e => if e.connectionFailure then .ok false else .error (.backend e)

end MongoDBAdapter

/-- C6 (counterexample): the claim says a backend failure during
`search` propagates for *every* adapter, but the MongoDB adapter's
`except` block converts any failure into the empty result list: a
failing aggregation returns `.ok []` instead of an error. -/
theorem C6_counterexample :
    MongoDBAdapter.search { collections := [] } "docs" [] 5
      (some { connectionFailure := false }) = .ok ([] : List SearchResult) ∧
    (MongoDBAdapter.search { collections := [] } "docs" [] 5
      (some { connectionFailure := false })).isOk = true := by
  exact ⟨rfl, rfl⟩

/-- C6 (amended): backend failures during `add_documents` propagate in
all three adapters; backend failures during `search` propagate in the
Pinecone and ChromaDB adapters, while the MongoDB adapter's `search`
converts any failure into the empty result list as a documented
fallback; backend failures during `delete_documents` and
`delete_collection` are converted to `false` in all three adapters;
`health_check` failures are converted to `false` in the Pinecone
adapter (the MongoDB adapter converts only connection failures — see
the health-check claim). -/
theorem C6_error_propagation_amended :
    (∀ (documents : List Document) (collectionName : String) (e : PyErr),
      (PineconeAdapter.add_documents_run documents collectionName (some e)).isOk = false) ∧
    (∀ (st : ChromaState) (documents : List Document) (collectionName : String) (e : PyErr),
      (ChromaDBAdapter.add_documents st documents collectionName (some e)).1.isOk = false) ∧
    (∀ (documents : List Document) (collectionName : String) (e : PyErr),
      (MongoDBAdapter.add_documents_run documents collectionName (some e)).isOk = false) ∧
    (∀ (st : PineconeState) (name : String) (found : List SearchResult) (e : PyErr),
      PineconeAdapter.validate_index_name name = .ok name →
      st.indexes.contains name = true →
      PineconeAdapter.search st name found (some e) = .error (.backend e)) ∧
    (∀ (st : ChromaState) (name : String) (results : List SearchResult) (e : PyErr),
      (lookupColl st name).isSome = true →
      ChromaDBAdapter.search st name results (some e) = .error (.backend e)) ∧
    (∀ (st : MongoState) (name : String) (q : List ℝ) (k : Nat) (e : PyErr),
      MongoDBAdapter.search st name q k (some e) = .ok ([] : List SearchResult)) ∧
    (∀ (st : PineconeState) (ids : List String) (name : String) (e : PyErr),
      PineconeAdapter.delete_documents st ids name (some e) = false) ∧
    (∀ (st : ChromaState) (ids : List String) (name : String) (e : PyErr),
      (ChromaDBAdapter.delete_documents st ids name (some e)).1 = false) ∧
    (∀ (st : MongoState) (ids : List String) (name : String) (e : PyErr),
      (MongoDBAdapter.delete_documents st ids name (some e)).1 = false) ∧
    (∀ (st : PineconeState) (name : String) (e : PyErr),
      PineconeAdapter.validate_index_name name = .ok name →
      st.indexes.contains name = true →
      (PineconeAdapter.delete_collection st name (some e)).1 = false) ∧
    (∀ (st : ChromaState) (name : String) (e : PyErr),
      (lookupColl st name).isSome = true →
      (ChromaDBAdapter.delete_collection st name (some e)).1 = false) ∧
    (∀ (st : MongoState) (name : String) (e : PyErr),
      (MongoDBAdapter.delete_collection st name (some e)).1 = false) ∧
    (∀ e : PyErr, PineconeAdapter.health_check (some e) = false) := by
  refine ⟨?_, ?_, ?_, ?_, ?_, ?_, ?_, ?_, ?_, ?_, ?_, ?_, ?_⟩
  · intro documents collectionName e
    unfold PineconeAdapter.add_documents_run
    cases PineconeAdapter.validate_index_name collectionName <;> rfl
  · intro st documents collectionName e
    rfl
  · intro documents collectionName e
    rfl
  · intro st name found e hv hc
    simp at hc
    unfold PineconeAdapter.search
    rw [hv]
    simp [hc]
  · intro st name results e hc
    unfold ChromaDBAdapter.search
    rw [if_pos hc]
  · intro st name q k e
    rfl
  · intro st ids name e
    unfold PineconeAdapter.delete_documents
    cases hv : PineconeAdapter.validate_index_name name with
    | error err => rfl
    | ok n =>
      by_cases hc : st.indexes.contains n
      · simp [hc]
      · simp [hc]
  · intro st ids name e
    unfold ChromaDBAdapter.delete_documents
    by_cases hc : (lookupColl st name).isSome
    · rw [if_pos hc]
    · rw [if_neg hc]
  · intro st ids name e
    rfl
  · intro st name e hv hc
    simp at hc
    unfold PineconeAdapter.delete_collection
    rw [hv]
    simp [hc]
  · intro st name e hc
    unfold ChromaDBAdapter.delete_collection
    rw [if_pos hc]
  · intro st name e
    rfl
  · intro e
    rfl

/-- C6 (witness): the amended theorem evaluated concretely: a backend
failure on an existing Pinecone index propagates out of `search`, a
backend failure during `delete_collection` becomes `false` in both
the Pinecone and ChromaDB adapters. -/
theorem C6_error_propagation_amended_witness :
    PineconeAdapter.search { indexes := ["docs"] } "docs" []
      (some { connectionFailure := false }) =
      .error (.backend { connectionFailure := false }) ∧
    (PineconeAdapter.delete_collection { indexes := ["docs"] } "docs"
      (some { connectionFailure := false })).1 = false ∧
    (ChromaDBAdapter.delete_collection { collections := [("c", [])] } "c"
      (some { connectionFailure := false })).1 = false := by
  refine ⟨?_, ?_, ?_⟩
  · exact C6_error_propagation_amended.2.2.2.1 { indexes := ["docs"] } "docs" []
      { connectionFailure := false } (by rfl) (by decide)
  · exact C6_error_propagation_amended.2.2.2.2.2.2.2.2.2.1 { indexes := ["docs"] } "docs"
      { connectionFailure := false } (by rfl) (by decide)
  · exact C6_error_propagation_amended.2.2.2.2.2.2.2.2.2.2.1 { collections := [("c", [])] }
      "c" { connectionFailure := false } (by decide)

/-- C7 (counterexample): the claim says `delete_documents` returns
`false` whenever no stored document matched any given id, for every
adapter; the ChromaDB adapter returns `true` whenever the collection
exists, even though the requested id `"z"` matches nothing in the
stored ids `["a"]`. -/
theorem C7_counterexample :
    (ChromaDBAdapter.delete_documents { collections := [("c", ["a"])] } ["z"] "c" none).1 =
      true ∧
    (["a"] : List String).contains "z" = false := by
  exact ⟨rfl, by decide⟩

/-- C7 (amended): `delete_documents` never raises (all exceptions are
converted to `false` by construction).  The ChromaDB adapter returns
`false` exactly when the collection is not cached (or the backend
fails) and `true` whenever it is cached, matching ids or not; the
Pinecone adapter likewise returns `false` for a missing index and
`true` for an existing one regardless of matches; only the MongoDB
adapter reports matches: its result is `true` iff some stored
document's id was among the requested ids. -/
theorem C7_delete_documents_amended :
    (∀ (st : ChromaState) (ids : List String) (name : String) (fail : Option PyErr),
      (lookupColl st name).isSome = false →
      (ChromaDBAdapter.delete_documents st ids name fail).1 = false) ∧
    (∀ (st : ChromaState) (ids : List String) (name : String),
      (lookupColl st name).isSome = true →
      (ChromaDBAdapter.delete_documents st ids name none).1 = true) ∧
    (∀ (st : PineconeState) (ids : List String) (name : String) (fail : Option PyErr),
      PineconeAdapter.validate_index_name name = .ok name →
      st.indexes.contains name = false →
      PineconeAdapter.delete_documents st ids name fail = false) ∧
    (∀ (st : PineconeState) (ids : List String) (name : String),
      PineconeAdapter.validate_index_name name = .ok name →
      st.indexes.contains name = true →
      PineconeAdapter.delete_documents st ids name none = true) ∧
    (∀ (st : MongoState) (ids : List String) (name : String),
      (MongoDBAdapter.delete_documents st ids name none).1 = true ↔
        ∃ d ∈ mongoColl st name, ids.contains d.id = true) := by
  refine ⟨?_, ?_, ?_, ?_, ?_⟩
  · intro st ids name fail hc
    unfold ChromaDBAdapter.delete_documents
    rw [if_neg (by simp [hc])]
  · intro st ids name hc
    unfold ChromaDBAdapter.delete_documents
    rw [if_pos hc]
  · intro st ids name fail hv hc
    simp at hc
    unfold PineconeAdapter.delete_documents
    rw [hv]
    simp [hc]
  · intro st ids name hv hc
    simp at hc
    unfold PineconeAdapter.delete_documents
    rw [hv]
    simp [hc]
  · intro st ids name
    unfold MongoDBAdapter.delete_documents
    simp only [decide_eq_true_eq]
    rw [List.length_pos]
    constructor
    · intro hne
      obtain ⟨d, hd⟩ := List.exists_mem_of_ne_nil _ hne
      have hmem := List.mem_filter.mp hd
      exact ⟨d, hmem.1, hmem.2⟩
    · intro ⟨d, hd, hp⟩
      intro hnil
      have : d ∈ (mongoColl st name).filter (fun d => ids.contains d.id) :=
        List.mem_filter.mpr ⟨hd, hp⟩
      rw [hnil] at this
      exact List.not_mem_nil d this

/-- C7 (witness): the amended theorem evaluated concretely: deleting
from an unknown collection yields `false` for ChromaDB and Pinecone;
a MongoDB deletion with no matching id yields `false` and one with a
matching id yields `true`. -/
theorem C7_delete_documents_amended_witness :
    (ChromaDBAdapter.delete_documents { collections := [] } ["a"] "c" none).1 = false ∧
    PineconeAdapter.delete_documents { indexes := [] } ["a"] "docs" none = false ∧
    (MongoDBAdapter.delete_documents
      { collections := [("c", [{ id := "a", content := "x", embedding := [], metadata := [] }])] }
      ["z"] "c" none).1 = false ∧
    (MongoDBAdapter.delete_documents
      { collections := [("c", [{ id := "a", content := "x", embedding := [], metadata := [] }])] }
      ["a"] "c" none).1 = true := by
  refine ⟨?_, ?_, ?_, ?_⟩
  · exact C7_delete_documents_amended.1 { collections := [] } ["a"] "c" none (by rfl)
  · exact C7_delete_documents_amended.2.2.1 { indexes := [] } ["a"] "docs" none
      (by rfl) (by decide)
  · have h := (C7_delete_documents_amended.2.2.2.2
      { collections := [("c", [{ id := "a", content := "x", embedding := [], metadata := [] }])] }
      ["z"] "c")
    cases hb : (MongoDBAdapter.delete_documents
      { collections := [("c", [{ id := "a", content := "x", embedding := [], metadata := [] }])] }
      ["z"] "c" none).1
    · rfl
    · obtain ⟨d, hd, hp⟩ := h.mp hb
      rw [show mongoColl
          { collections := [("c", [{ id := "a", content := "x", embedding := [], metadata := [] }])] }
          "c" = [{ id := "a", content := "x", embedding := [], metadata := [] }] from rfl] at hd
      rw [List.mem_singleton] at hd
      subst hd
      simp at hp
  · exact (C7_delete_documents_amended.2.2.2.2 _ ["a"] "c").mpr
      ⟨{ id := "a", content := "x", embedding := [], metadata := [] },
        by rw [show mongoColl
            { collections := [("c", [{ id := "a", content := "x", embedding := [], metadata := [] }])] }
            "c" = [{ id := "a", content := "x", embedding := [], metadata := [] }] from rfl]
           exact List.mem_singleton.mpr rfl,
        by decide⟩

theorem contains_filter_ne (l : List String) (name : String) :
    (l.filter (fun n => !(n == name))).contains name = false := by
  rw [Bool.eq_false_iff]
  intro hc
  have hm : name ∈ l.filter (fun n => !(n == name)) := by simpa using hc
  have hp := (List.mem_filter.mp hm).2
  simp at hp

theorem lookupColl_filter_self (l : List (String × List String)) (name : String) :
    lookupColl { collections := l.filter (fun kv => !(kv.1 == name)) } name = none := by
  unfold lookupColl
  rw [List.find?_eq_none.mpr]
  · rfl
  · intro kv hkv
    have hm := List.mem_filter.mp hkv
    simpa using fun he => by simp [he] at hm

/-- C8 (counterexample): the claim says `delete_collection` returns
`true` for *every* collection name that does not exist; but the cloud
adapter's name validation runs inside the `try` block, so the invalid
(and nonexistent) name `"bad_name"` yields `false`. -/
theorem C8_counterexample :
    (PineconeAdapter.delete_collection { indexes := [] } "bad_name" none).1 = false ∧
    ({ indexes := [] } : PineconeState).indexes.contains "bad_name" = false ∧
    PineconeAdapter.validate_index_name "bad_name" =
      .error (.underscore "bad_name" "bad-name") := by
  refine ⟨rfl, by decide, by rfl⟩

/-- C8 (amended): `delete_collection` never raises (every exception is
converted to `false`).  For the ChromaDB and MongoDB adapters, and for
the cloud adapter on every name passing its validation, it is
idempotent and returns `true` even when the collection does not exist
(assuming the backend deletion itself does not fail); the cloud
adapter instead returns `false` for a name failing validation. -/
theorem C8_delete_collection_amended :
    (∀ (st : PineconeState) (name : String) (fail : Option PyErr) (err : NameError),
      PineconeAdapter.validate_index_name name = .error err →
      PineconeAdapter.delete_collection st name fail = (false, st)) ∧
    (∀ (st : PineconeState) (name : String),
      PineconeAdapter.validate_index_name name = .ok name →
      (PineconeAdapter.delete_collection st name none).1 = true ∧
      (PineconeAdapter.delete_collection
        (PineconeAdapter.delete_collection st name none).2 name none).1 = true) ∧
    (∀ (st : PineconeState) (name : String),
      PineconeAdapter.validate_index_name name = .ok name →
      st.indexes.contains name = false →
      PineconeAdapter.delete_collection st name none = (true, st)) ∧
    (∀ (st : ChromaState) (name : String),
      (ChromaDBAdapter.delete_collection st name none).1 = true ∧
      (ChromaDBAdapter.delete_collection
        (ChromaDBAdapter.delete_collection st name none).2 name none).1 = true) ∧
    (∀ (st : ChromaState) (name : String),
      (lookupColl st name).isSome = false →
      ChromaDBAdapter.delete_collection st name none = (true, st)) ∧
    (∀ (st : MongoState) (name : String),
      (MongoDBAdapter.delete_collection st name none).1 = true) := by
  refine ⟨?_, ?_, ?_, ?_, ?_, ?_⟩
  · intro st name fail err hv
    unfold PineconeAdapter.delete_collection
    rw [hv]
  · intro st name hv
    have hall : ∀ st2 : PineconeState,
        (PineconeAdapter.delete_collection st2 name none).1 = true := by
      intro st2
      unfold PineconeAdapter.delete_collection
      rw [hv]
      by_cases hc : name ∈ st2.indexes
      · simp [hc]
      · simp [hc]
    exact ⟨hall st, hall _⟩
  · intro st name hv hc
    simp at hc
    unfold PineconeAdapter.delete_collection
    rw [hv]
    simp [hc]
  · intro st name
    constructor
    · unfold ChromaDBAdapter.delete_collection
      by_cases hc : (lookupColl st name).isSome
      · rw [if_pos hc]
      · rw [if_neg hc]
    · unfold ChromaDBAdapter.delete_collection
      by_cases hc : (lookupColl st name).isSome
      · rw [if_pos hc]
        have h2 := lookupColl_filter_self st.collections name
        rw [if_neg (by simp [h2])]
      · rw [if_neg hc, if_neg hc]
  · intro st name hc
    unfold ChromaDBAdapter.delete_collection
    rw [if_neg (by simp [hc])]
  · intro st name
    rfl

/-- C8 (witness): the amended theorem evaluated concretely: the cloud
adapter deletes the valid nonexistent name `"docs"` with success and
stays successful on repetition; ChromaDB deletes the existing
collection `"c"` with success twice in a row. -/
theorem C8_delete_collection_amended_witness :
    PineconeAdapter.delete_collection { indexes := [] } "docs" none =
      (true, { indexes := [] }) ∧
    (PineconeAdapter.delete_collection { indexes := ["docs"] } "docs" none).1 = true ∧
    (ChromaDBAdapter.delete_collection { collections := [("c", ["a"])] } "c" none).1 = true ∧
    (ChromaDBAdapter.delete_collection
      (ChromaDBAdapter.delete_collection { collections := [("c", ["a"])] } "c" none).2
      "c" none).1 = true := by
  refine ⟨?_, ?_, ?_, ?_⟩
  · exact C8_delete_collection_amended.2.2.1 { indexes := [] } "docs" (by rfl) (by decide)
  · exact (C8_delete_collection_amended.2.1 { indexes := ["docs"] } "docs" (by rfl)).1
  · exact (C8_delete_collection_amended.2.2.2.1 { collections := [("c", ["a"])] } "c").1
  · exact (C8_delete_collection_amended.2.2.2.1 { collections := [("c", ["a"])] } "c").2

/-- C9: `health_check` behaviour across the adapters.  The Pinecone
adapter catches every exception (`false` on any failure, `true`
otherwise) and the ChromaDB probe is constant `true`, as the claim
says; the MongoDB adapter however catches *only*
`pymongo.errors.ConnectionFailure`: a connection failure yields
`false`, but any other exception raised by the `ping` command
propagates, contradicting the claim's (and the port contract's)
"never raises".  The last conjunct evaluates the code at the failing
input. -/
theorem C9_health_check :
    (∀ e : PyErr, PineconeAdapter.health_check (some e) = false) ∧
    PineconeAdapter.health_check none = true ∧
    ChromaDBAdapter.health_check = true ∧
    MongoDBAdapter.health_check none = .ok true ∧
    (∀ e : PyErr, e.connectionFailure = true →
      MongoDBAdapter.health_check (some e) = .ok false) ∧
    (∀ e : PyErr, e.connectionFailure = false →
      MongoDBAdapter.health_check (some e) = .error (.backend e)) := by
  refine ⟨fun e => rfl, rfl, rfl, rfl, ?_, ?_⟩
  · intro e he
    simp [MongoDBAdapter.health_check, he]
  · intro e he
    simp [MongoDBAdapter.health_check, he]

/-- C9 (witness): the health-check theorem evaluated at a connection
failure (converted to `ok false`) and at a non-connection error
(propagated as an exception, the divergence from the claim). -/
theorem C9_health_check_witness :
    MongoDBAdapter.health_check (some { connectionFailure := true }) = .ok false ∧
    MongoDBAdapter.health_check (some { connectionFailure := false }) =
      .error (.backend { connectionFailure := false }) := by
  exact ⟨C9_health_check.2.2.2.2.1 { connectionFailure := true } rfl,
    C9_health_check.2.2.2.2.2 { connectionFailure := false } rfl⟩

/-! ## C10: the ChromaDB collection-cache invariant

An operation trace against one `ChromaDBAdapter` instance, each
operation carrying its backend-failure oracle. -/

inductive ChromaOp where
  | add (documents : List Document) (collectionName : String) (fail : Option PyErr)
  | query (collectionName : String) (results : List SearchResult) (fail : Option PyErr)
  | removeDocs (docIds : List String) (collectionName : String) (fail : Option PyErr)
  | removeColl (collectionName : String) (fail : Option PyErr)

namespace ChromaDBAdapter

/-- The state reached after one adapter operation (`search` never
mutates state). -/
def stepState (st : ChromaState) : ChromaOp → ChromaState
  | .add documents name fail => (add_documents st documents name fail).2
  | .query _ _ _ => st
  | .removeDocs ids name fail => (delete_documents st ids name fail).2
  | .removeColl name fail => (delete_collection st name fail).2

/-- The state reached after a trace of adapter operations. -/
def runOps (st : ChromaState) (ops : List ChromaOp) : ChromaState :=
  ops.foldl stepState st

end ChromaDBAdapter

/-- Whether `name` should be cached after a trace: set by any
`add_documents` for `name` (the cache entry is created before the
fallible backend calls, so even a failing add caches it), cleared by a
`delete_collection` for `name` whose backend deletion did not fail,
and untouched by every other operation. -/
def cachedAfter (start : Bool) (ops : List ChromaOp) (name : String) : Bool :=
  ops.foldl (fun b op =>
    match op with
    | .add _ n _ => if n == name then true else b
    | .removeColl n fail => if n == name && fail.isNone then false else b
    | _ => b) start

theorem isSome_map_val {α β : Type} (f : α → β) (o : Option α) :
    (o.map f).isSome = o.isSome := by
  cases o <;> rfl

theorem lookupColl_isSome (st : ChromaState) (name : String) :
    (lookupColl st name).isSome =
      (st.collections.find? (fun kv => kv.1 == name)).isSome := by
  unfold lookupColl
  exact isSome_map_val _ _

theorem find?_append_new (l : List (String × List String)) (cn name : String) :
    ((l ++ [(cn, ([] : List String))]).find? (fun kv => kv.1 == name)).isSome =
      ((l.find? (fun kv => kv.1 == name)).isSome || (cn == name)) := by
  rw [List.find?_append]
  cases h : l.find? (fun kv => kv.1 == name) with
  | some kv =>
    have h1 : (some kv).or
        (List.find? (fun kv => kv.1 == name) [(cn, ([] : List String))]) = some kv := by
      simp
    rw [h1]
    cases (cn == name) <;> rfl
  | none =>
    rw [Option.none_or]
    cases hb : (cn == name)
    · rw [List.find?_cons_of_neg _ (by simp [hb])]
      simp
    · rw [List.find?_cons_of_pos _ (by simp [hb])]
      simp

theorem find?_map_keykeep (l : List (String × List String))
    (g : String × List String → String × List String)
    (hg : ∀ kv, (g kv).1 = kv.1) (name : String) :
    ((l.map g).find? (fun kv => kv.1 == name)).isSome =
      (l.find? (fun kv => kv.1 == name)).isSome := by
  induction l with
  | nil => rfl
  | cons kv rest ih =>
    simp only [List.map_cons]
    cases hb : (kv.1 == name)
    · rw [List.find?_cons_of_neg _ (by simp [hg, hb]),
        List.find?_cons_of_neg _ (by simp [hb])]
      exact ih
    · rw [List.find?_cons_of_pos _ (by simp [hg, hb]),
        List.find?_cons_of_pos _ (by simpa using hb)]
      rfl

theorem find?_filter_ne (l : List (String × List String)) (cn name : String) :
    ((l.filter (fun kv => !(kv.1 == cn))).find? (fun kv => kv.1 == name)).isSome =
      (!(cn == name) && (l.find? (fun kv => kv.1 == name)).isSome) := by
  induction l with
  | nil => simp
  | cons kv rest ih =>
    rw [List.filter_cons]
    by_cases hk : kv.1 = cn
    · rw [show (!(kv.1 == cn)) = false from by simp [hk]]
      simp only [Bool.false_eq_true, if_false]
      cases hb : (kv.1 == name)
      · rw [List.find?_cons_of_neg _ (by simp [hb])]
        exact ih
      · have hcn : (cn == name) = true := by
          rw [← hk]
          exact hb
        rw [ih, hcn, List.find?_cons_of_pos _ (by simpa using hb)]
        simp
    · rw [show (!(kv.1 == cn)) = true from by simp [hk]]
      simp only [if_true]
      cases hb : (kv.1 == name)
      · rw [List.find?_cons_of_neg _ (by simp [hb]),
          List.find?_cons_of_neg _ (by simp [hb])]
        exact ih
      · rw [List.find?_cons_of_pos _ (by simpa using hb),
          List.find?_cons_of_pos _ (by simpa using hb)]
        have hb2 : kv.1 = name := by simpa using hb
        have hcn : (cn == name) = false := by
          rw [Bool.eq_false_iff]
          intro hc
          exact hk (hb2.trans (by simpa using hc : cn = name).symm)
        rw [hcn]
        rfl

/-- The per-operation effect of an adapter call on cache membership of
`name`: `add_documents` for `n` caches `n` (whether or not the backend
call fails), `delete_collection` for `n` with a successful backend
deletion removes `n`, and every other operation leaves membership
unchanged. -/
theorem stepState_lookup (st : ChromaState) (op : ChromaOp) (name : String) :
    (lookupColl (ChromaDBAdapter.stepState st op) name).isSome =
      (match op with
       | .add _ n _ => if n == name then true else (lookupColl st name).isSome
       | .removeColl n fail =>
          if n == name && fail.isNone then false else (lookupColl st name).isSome
       | _ => (lookupColl st name).isSome) := by
  cases op with
  | add documents n fail =>
    simp only [ChromaDBAdapter.stepState]
    unfold ChromaDBAdapter.add_documents
    simp only [lookupColl_isSome]
    by_cases hc : (st.collections.find? (fun kv => kv.1 == n)).isSome
    · rw [if_pos hc]
      cases fail with
      | some e =>
        simp only []
        cases hb : (n == name)
        · simp [hb]
        · have hn : n = name := by simpa using hb
          subst hn
          simp [hc]
      | none =>
        simp only []
        rw [find?_map_keykeep st.collections
          (fun kv => if kv.1 == n then
            (kv.1, kv.2 ++ documents.enum.map fun ic =>
              pyOrStr ic.2.doc_id ("doc_" ++ toString ic.1)) else kv)
          (fun kv => by by_cases h : (kv.1 == n) = true <;> simp [h]) name]
        cases hb : (n == name)
        · simp [hb]
        · have hn : n = name := by simpa using hb
          subst hn
          simp [hc]
    · rw [if_neg hc]
      cases fail with
      | some e =>
        simp only []
        rw [find?_append_new]
        cases hb : (n == name)
        · simp [hb]
        · have hn : n = name := by simpa using hb
          subst hn
          simp
      | none =>
        simp only []
        rw [find?_map_keykeep (st.collections ++ [(n, [])])
          (fun kv => if kv.1 == n then
            (kv.1, kv.2 ++ documents.enum.map fun ic =>
              pyOrStr ic.2.doc_id ("doc_" ++ toString ic.1)) else kv)
          (fun kv => by by_cases h : (kv.1 == n) = true <;> simp [h]) name]
        rw [find?_append_new]
        cases hb : (n == name)
        · simp [hb]
        · have hn : n = name := by simpa using hb
          subst hn
          simp
  | query n results fail => rfl
  | removeDocs ids n fail =>
    simp only [ChromaDBAdapter.stepState]
    unfold ChromaDBAdapter.delete_documents
    by_cases hc : (lookupColl st n).isSome
    · rw [if_pos hc]
      cases fail with
      | some e => rfl
      | none =>
        simp only [lookupColl_isSome]
        exact find?_map_keykeep st.collections
          (fun kv => if kv.1 == n then
            (kv.1, kv.2.filter (fun i => !(ids.contains i))) else kv)
          (fun kv => by by_cases h : (kv.1 == n) = true <;> simp [h]) name
    · rw [if_neg hc]
  | removeColl n fail =>
    simp only [ChromaDBAdapter.stepState]
    unfold ChromaDBAdapter.delete_collection
    by_cases hc : (lookupColl st n).isSome
    · rw [if_pos hc]
      cases fail with
      | some e => simp
      | none =>
        simp only [lookupColl_isSome]
        rw [find?_filter_ne]
        cases hb : (n == name)
        · simp [hb]
        · simp [hb]
    · rw [if_neg hc]
      cases fail with
      | some e => simp
      | none =>
        cases hb : (n == name)
        · simp [hb]
        · have hn : n = name := by simpa using hb
          subst hn
          simp only [Option.isNone_none, Bool.and_true, hb, if_true]
          simpa using hc

theorem runOps_lookup (ops : List ChromaOp) :
    ∀ (st : ChromaState) (name : String),
      (lookupColl (ChromaDBAdapter.runOps st ops) name).isSome =
        cachedAfter ((lookupColl st name).isSome) ops name := by
  induction ops with
  | nil => intro st name; rfl
  | cons op rest ih =>
    intro st name
    unfold ChromaDBAdapter.runOps at ih ⊢
    rw [List.foldl_cons]
    rw [ih (ChromaDBAdapter.stepState st op) name]
    unfold cachedAfter
    rw [List.foldl_cons]
    rw [stepState_lookup]

/-- C10: the in-process adapter's collection cache contains exactly
the collections created through this instance's `add_documents` and
not yet removed by a successful `delete_collection` (the invariant,
over every operation trace from a fresh instance); consequently,
whenever `delete_collection name` returns `true` the cache no longer
holds `name`, so a subsequent `search` returns `[]` and
`delete_documents` returns `false` — and this persists across any
further trace containing no `add_documents` for `name`. -/
theorem C10_chroma_cache_invariant :
    (∀ (ops : List ChromaOp) (name : String),
      (lookupColl (ChromaDBAdapter.runOps { collections := [] } ops) name).isSome =
        cachedAfter false ops name) ∧
    (∀ (st : ChromaState) (name : String) (fail : Option PyErr) (st2 : ChromaState),
      ChromaDBAdapter.delete_collection st name fail = (true, st2) →
      (lookupColl st2 name).isSome = false ∧
      (∀ (results : List SearchResult) (fail2 : Option PyErr),
        ChromaDBAdapter.search st2 name results fail2 = .ok []) ∧
      (∀ (ids : List String) (fail3 : Option PyErr),
        (ChromaDBAdapter.delete_documents st2 ids name fail3).1 = false)) ∧
    (∀ (st : ChromaState) (name : String) (ops : List ChromaOp),
      (lookupColl st name).isSome = false →
      (ops.all (fun op => match op with
        | ChromaOp.add _ n _ => !(n == name)
        | _ => true)) = true →
      (lookupColl (ChromaDBAdapter.runOps st ops) name).isSome = false) := by
  refine ⟨?_, ?_, ?_⟩
  · intro ops name
    rw [runOps_lookup ops { collections := [] } name]
    rfl
  · intro st name fail st2 h
    have hlook : (lookupColl st2 name).isSome = false := by
      unfold ChromaDBAdapter.delete_collection at h
      by_cases hc : (lookupColl st name).isSome
      · rw [if_pos hc] at h
        cases fail with
        | some e => exact absurd (congrArg Prod.fst h) (by simp)
        | none =>
          have h2 : st2 = { collections :=
              st.collections.filter (fun kv => !(kv.1 == name)) } :=
            (congrArg Prod.snd h).symm
          subst h2
          rw [lookupColl_isSome]
          simp only []
          rw [find?_filter_ne]
          simp
      · rw [if_neg hc] at h
        have h2 : st2 = st := (congrArg Prod.snd h).symm
        subst h2
        simpa using hc
    refine ⟨hlook, ?_, ?_⟩
    · intro results fail2
      unfold ChromaDBAdapter.search
      rw [if_neg (by simp [hlook])]
    · intro ids fail3
      unfold ChromaDBAdapter.delete_documents
      rw [if_neg (by simp [hlook])]
  · intro st name ops hfalse hall
    induction ops generalizing st with
    | nil => simpa [ChromaDBAdapter.runOps] using hfalse
    | cons op rest ih =>
      have hrest : rest.all (fun op => match op with
          | ChromaOp.add _ n _ => !(n == name)
          | _ => true) = true := by
        apply List.all_eq_true.mpr
        intro x hx
        exact List.all_eq_true.mp hall x (by simp [hx])
      have hop := List.all_eq_true.mp hall op (by simp)
      have hstep : (lookupColl (ChromaDBAdapter.stepState st op) name).isSome = false := by
        rw [stepState_lookup]
        cases op with
        | add documents n fail =>
          have hb : (n == name) = false := by simpa using hop
          simp [hb, hfalse]
        | query n results fail => exact hfalse
        | removeDocs ids n fail => exact hfalse
        | removeColl n fail =>
          cases hb : (n == name && fail.isNone)
          · simpa [hb] using hfalse
          · simp [hb]
      have hrun : ChromaDBAdapter.runOps st (op :: rest) =
          ChromaDBAdapter.runOps (ChromaDBAdapter.stepState st op) rest := by
        unfold ChromaDBAdapter.runOps
        rw [List.foldl_cons]
      rw [hrun]
      exact ih (ChromaDBAdapter.stepState st op) hstep hrest

/-- C10 (witness): a concrete trace: adding to `"c"` caches it,
deleting `"c"` uncaches it, and on the resulting state `search`
returns `[]` and `delete_documents` returns `false`. -/
theorem C10_chroma_cache_invariant_witness :
    (lookupColl (ChromaDBAdapter.runOps { collections := [] }
      [ChromaOp.add [] "c" none]) "c").isSome = true ∧
    (lookupColl (ChromaDBAdapter.runOps { collections := [] }
      [ChromaOp.add [] "c" none, ChromaOp.removeColl "c" none]) "c").isSome = false ∧
    ChromaDBAdapter.search { collections := [] } "c" [] none = .ok [] ∧
    (ChromaDBAdapter.delete_documents { collections := [] } ["x"] "c" none).1 = false := by
  have h1 := C10_chroma_cache_invariant.1 [ChromaOp.add [] "c" none] "c"
  have h2 := C10_chroma_cache_invariant.1
    [ChromaOp.add [] "c" none, ChromaOp.removeColl "c" none] "c"
  have h3 := C10_chroma_cache_invariant.2.1 { collections := [("c", [])] } "c" none
    { collections := [] } (by rfl)
  exact ⟨by rw [h1]; rfl, by rw [h2]; rfl, h3.2.1 [] none, h3.2.2 ["x"] none⟩

end RagSpec
